import Mathlib

/-!
Verification development for the ds-help-utils repository: a shallow
embedding of the ranked-list metrics (Precision@K, Recall@K, AP@K, DCG@K,
nDCG@K) from src/ds_help_utils/metrics/_ranking.py together with their
validation helpers from src/ds_help_utils/utils/validation.py, and of the
correlation-based feature selector HighCorrRemoval from
src/ds_help_utils/feature_selection/_corr_removal.py.

Numeric values are modelled with the rationals; the two metrics that use
the real base-2 logarithm (DCG@K and nDCG@K) are modelled over the reals.
Python exceptions are modelled by the PyErr type and fallible functions
return Except PyErr.
-/

namespace DsHelpUtils

/-- Python exceptions raised (or conceivably raised) by the library:
ValueError with its message, AttributeError naming the missing attribute,
and the scikit-learn style NotFittedError that a distinct
uninitialized-state signal would use. -/
inductive PyErr where
  | valueError (msg : String)
  | attributeError (attr : String)
  | notFittedError (msg : String)
  deriving DecidableEq, Repr

/-- Model of a numpy ndarray as produced by np.array on the inputs of the
metrics: either a one-dimensional array of numbers or a rectangular
two-dimensional one (enough to express the ndim check of the validator). -/
inductive NDArray where
  | oneD (data : List ℚ)
  | twoD (rows : List (List ℚ))
  deriving DecidableEq, Repr

namespace NDArray

/-- The numpy shape attribute. -/
def shape : NDArray → List Nat
  | oneD d => [d.length]
  | twoD rows => [rows.length, (rows.headD []).length]

/-- The numpy ndim attribute. -/
def ndim : NDArray → Nat
  | oneD _ => 1
  | twoD _ => 2

/-- Python len of the array: the first component of the shape. -/
def len (a : NDArray) : Nat := a.shape.headD 0

/-- The underlying one-dimensional data (used once the ndim check passed). -/
def data : NDArray → List ℚ
  | oneD d => d
  | twoD _ => []

/-- Model of np.ones_like. -/
def onesLike : NDArray → NDArray
  | oneD d => oneD (d.map fun _ => 1)
  | twoD rows => twoD (rows.map fun r => r.map fun _ => 1)

end NDArray

open NDArray

/-- Embedding of check_and_convert_array from
src/ds_help_utils/utils/validation.py: the five checks in source order,
each raising ValueError with its message, and on success the pair of
(already converted) arrays is returned. -/
def check_and_convert_array (y_true y_score : NDArray) (K : Int) :
    Except PyErr (List ℚ × List ℚ) :=
  if ¬ (y_true.shape = y_score.shape) then
    .error (.valueError ("The dimensions of the source arrays must match. Dimension y_true = "
      ++ toString y_true.shape ++ ", dimension y_score = " ++ toString y_score.shape ++ "."))
  else if ¬ (y_true.ndim = 1) then
    .error (.valueError ("The dimension of the source arrays must be equal to 1, the dimension of the source arrays = "
      ++ toString y_true.ndim ++ "."))
  else if ¬ (y_true.len > 0) then
    .error (.valueError "The length of the source arrays must be greater than 0.")
  else if ¬ (K > 0) then
    .error (.valueError "K must be greater than 0.")
  else if ¬ (K ≤ (y_true.len : Int)) then
    .error (.valueError ("K cannot be greater than the length of the original arrays. The length of the source arrays = "
      ++ toString y_true.len ++ ", K = " ++ toString K ++ "."))
  else
    .ok (y_true.data, y_score.data)

/-- The conjunction of the five constraints of the validator; validation
succeeds exactly on inputs satisfying it. -/
def validInput (y_true y_score : NDArray) (K : Int) : Prop :=
  y_true.shape = y_score.shape ∧ y_true.ndim = 1 ∧ y_true.len > 0 ∧
    K > 0 ∧ K ≤ (y_true.len : Int)

instance (a b : NDArray) (K : Int) : Decidable (validInput a b K) := by
  unfold validInput; infer_instance

/-- Embedding of y_score.argsort(): the indices 0..n-1 sorted so that the
scores they select are ascending.  The source uses the default numpy sort;
ties are broken only as the underlying sort defines, here by a stable
insertion sort. -/
def argsortAsc (s : List ℚ) : List Nat :=
  List.insertionSort (fun i j => s.getD i 0 ≤ s.getD j 0) (List.range s.length)

/-- Embedding of y_score.argsort()[::-1]: index order by descending score. -/
def idxSortDesc (s : List ℚ) : List Nat := (argsortAsc s).reverse

/-- Embedding of rank_target from src/ds_help_utils/utils/validation.py:
the true labels reordered by descending score and truncated to the
first K entries. -/
def rank_target (y_true y_score : List ℚ) (K : Int) : List ℚ :=
  ((idxSortDesc y_score).map fun i => y_true.getD i 0).take K.toNat

/-- The numpy mean of a one-dimensional array. -/
def listMean (l : List ℚ) : ℚ := l.sum / l.length

/-- Embedding of precision_at_k from src/ds_help_utils/metrics/_ranking.py. -/
def precision_at_k (y_true y_score : NDArray) (K : Int) : Except PyErr ℚ := do
  let (t, s) ← check_and_convert_array y_true y_score K
  let y_ranked := rank_target t s K
  return listMean y_ranked

/-- Embedding of recall_at_k from src/ds_help_utils/metrics/_ranking.py:
the ratio of sums, guarded by the truthiness of y_true.sum(). -/
def recall_at_k (y_true y_score : NDArray) (K : Int) : Except PyErr ℚ := do
  let (t, s) ← check_and_convert_array y_true y_score K
  let y_ranked := rank_target t s K
  return if t.sum ≠ 0 then y_ranked.sum / t.sum else 0

/-- Embedding of average_precision_at_k from
src/ds_help_utils/metrics/_ranking.py: the mean of the elementwise product
of the ranked labels with the list of prefix precisions. -/
def average_precision_at_k (y_true y_score : NDArray) (K : Int) :
    Except PyErr ℚ := do
  let (t, s) ← check_and_convert_array y_true y_score K
  let y_ranked := rank_target t s K
  let prediction_list := (List.range K.toNat).map fun k => listMean (y_ranked.take (k + 1))
  return listMean (List.zipWith (· * ·) y_ranked prediction_list)

/-- The DCG sum of an already ranked and truncated label list:
sum over positions i of (2 ^ r i - 1) / log2 (i + 2), as computed by
((2 ** y_ranked - 1) / np.log2(np.arange(K) + 2)).sum() in the source. -/
noncomputable def dcgOfRanked (r : List ℚ) : ℝ :=
  ∑ i ∈ Finset.range r.length,
    ((2 : ℝ) ^ ((r.getD i 0 : ℚ) : ℝ) - 1) / Real.logb 2 ((i : ℝ) + 2)

/-- Embedding of discounted_cumulative_gain_at_k from
src/ds_help_utils/metrics/_ranking.py. -/
noncomputable def discounted_cumulative_gain_at_k (y_true y_score : NDArray)
    (K : Int) : Except PyErr ℝ := do
  let (t, s) ← check_and_convert_array y_true y_score K
  let y_ranked := rank_target t s K
  return dcgOfRanked y_ranked

/-- Embedding of normalized_discounted_cumulative_gain_at_k from
src/ds_help_utils/metrics/_ranking.py: DCG of the input divided by the DCG
of np.ones_like(y_true) under the same scores and K. -/
noncomputable def normalized_discounted_cumulative_gain_at_k
    (y_true y_score : NDArray) (K : Int) : Except PyErr ℝ := do
  let d ← discounted_cumulative_gain_at_k y_true y_score K
  let ideal ← discounted_cumulative_gain_at_k y_true.onesLike y_score K
  return d / ideal

/-!
Embedding of HighCorrRemoval from
src/ds_help_utils/feature_selection/_corr_removal.py.  The pandas data
frame is modelled abstractly by its column names together with the
correlation matrix X.corr(method) that the external pandas collaborator
returns: an entry is none where pandas produces NaN (zero-variance
column), some c otherwise.  The fit algorithm only reads this matrix.
-/

/-- A pandas data frame as seen by HighCorrRemoval: its columns (with
their data, for transform) and the correlation matrix produced by
X.corr(method). -/
structure PDFrame where
  cols : List String
  colData : String → List ℚ
  corr : Nat → Nat → Option ℚ

/-- The comparison corr.abs() > threshold on one entry; on a NaN entry
(none) the numpy comparison is False. -/
def absGtThr (c : Option ℚ) (t : ℚ) : Bool :=
  match c with
  | none => false
  | some v => decide (|v| > t)

/-- The True positions of sl = np.triu(corr.abs() > corr_threshold, k=1) in
row-major order, as pairs (row i, column j) with i < j, which is the order
zip(grid_x[sl], grid_y[sl]) traverses them. -/
def slPairs (X : PDFrame) (t : ℚ) : List (Nat × Nat) :=
  (List.range X.cols.length).flatMap fun i =>
    ((List.range X.cols.length).filter fun j =>
      decide (i < j) && absGtThr (X.corr i j) t).map fun j => (i, j)

/-- The elimination loop of fit.  For the pair at (row i, column j) the
zipped values are x = grid_x[i][j] = j and y = grid_y[i][j] = i, so the
source line *if x not in removed: removed.append(y)* reads: if the column
index j is not yet removed, append the row index i. -/
def removedLoop : List (Nat × Nat) → List Nat → List Nat
  | [], removed => removed
  | (i, j) :: ps, removed =>
      if j ∈ removed then removedLoop ps removed
      else removedLoop ps (removed ++ [i])

/-- The indices whose diagonal correlation entry is NaN:
np.arange(len(corr))[np.isnan(np.diagonal(corr))]. -/
def constCols (X : PDFrame) : List Nat :=
  (List.range X.cols.length).filter fun k => (X.corr k k).isNone

/-- The final removal list of fit: the loop result with the NaN-diagonal
indices appended. -/
def removedAll (X : PDFrame) (t : ℚ) : List Nat :=
  removedLoop (slPairs X t) [] ++ constCols X

/-- The column indices that survive fit. -/
def selectedIndices (X : PDFrame) (t : ℚ) : List Nat :=
  (List.range X.cols.length).filter fun idx => decide (idx ∉ removedAll X t)

/-- The selected_features_ list computed by fit:
[feature for (idx, feature) in enumerate(X.columns) if idx not in removed]. -/
def fitSelected (X : PDFrame) (t : ℚ) : List String :=
  ((X.cols.enum.filter fun p => decide (p.1 ∉ removedAll X t)).map Prod.snd)

/-- The HighCorrRemoval estimator: its constructor parameter
corr_threshold and the fitted attribute selected_features_, which is none
while the attribute has never been assigned (attribute access then raises
AttributeError, as in Python).  The correlation method is part of how the
PDFrame correlation matrix was produced. -/
structure HighCorrRemoval where
  corr_threshold : ℚ
  selected_features_ : Option (List String) := none
  deriving DecidableEq, Repr

/-- Embedding of HighCorrRemoval.fit: computes and assigns
selected_features_ from scratch and returns self. -/
def HighCorrRemoval.fit (m : HighCorrRemoval) (X : PDFrame) : HighCorrRemoval :=
  { m with selected_features_ := some (fitSelected X m.corr_threshold) }

/-- Embedding of HighCorrRemoval.transform: X[self.selected_features_].
Reading the attribute before any fit assigned it raises AttributeError;
otherwise the frame is restricted to the selected columns in list order. -/
def HighCorrRemoval.transform (m : HighCorrRemoval) (X : PDFrame) :
    Except PyErr (List (String × List ℚ)) :=
  match m.selected_features_ with
  | none => .error (.attributeError "selected_features_")
  | some sel => .ok (sel.map fun c => (c, X.colData c))

/-! Concrete frame for the Redundancy Detector scenario of the spec: a
pair of columns correlated at 0.95, an uncorrelated column, and a constant
column whose correlation row, column and diagonal entry are NaN. -/

/-- Correlation matrix of the scenario: columns 0 and 1 correlate at 0.95,
column 2 correlates at 0.1 with the others, column 3 is constant (NaN). -/
def exCorr : Nat → Nat → Option ℚ := fun i j =>
  if i = 3 ∨ j = 3 then none
  else if i = j then some 1
  else if (i = 0 ∧ j = 1) ∨ (i = 1 ∧ j = 0) then some (19/20)
  else some (1/10)

/-- The scenario frame with named columns a, b, c, d. -/
def exFrame : PDFrame := ⟨["a", "b", "c", "d"], fun _ => [], exCorr⟩

/-! Helper lemmas about the validator and the ranking step. -/

theorem shape_oneD (d : List ℚ) : (NDArray.oneD d).shape = [d.length] := rfl

theorem validInput_oneD {t s : List ℚ} {K : Int} :
    validInput (.oneD t) (.oneD s) K ↔
      t.length = s.length ∧ 0 < t.length ∧ 0 < K ∧ K ≤ (t.length : Int) := by
  simp [validInput, NDArray.shape, NDArray.ndim, NDArray.len]

theorem check_ok {t s : List ℚ} {K : Int}
    (h : validInput (.oneD t) (.oneD s) K) :
    check_and_convert_array (.oneD t) (.oneD s) K = .ok (t, s) := by
  obtain ⟨h1, h2, h3, h4, h5⟩ := h
  simp [check_and_convert_array, NDArray.data, h1, h2, h3, h4, h5]

theorem length_idxSortDesc (s : List ℚ) : (idxSortDesc s).length = s.length := by
  simp [idxSortDesc, argsortAsc, List.length_insertionSort]

theorem idxSortDesc_perm_range (s : List ℚ) :
    List.Perm (idxSortDesc s) (List.range s.length) :=
  (List.reverse_perm _).trans (List.perm_insertionSort _ _)

theorem map_getD_range (l : List ℚ) :
    (List.range l.length).map (fun i => l.getD i 0) = l := by
  induction l with
  | nil => simp
  | cons a l ih =>
      have h : ((fun i => (a :: l).getD i 0) ∘ Nat.succ) = fun i => l.getD i 0 := by
        funext i; rfl
      rw [List.length_cons, List.range_succ_eq_map, List.map_cons, List.map_map, h, ih]
      rfl

theorem ranked_base_perm {t s : List ℚ} (hlen : t.length = s.length) :
    List.Perm ((idxSortDesc s).map fun i => t.getD i 0) t := by
  have h1 := (idxSortDesc_perm_range s).map fun i => t.getD i 0
  rw [← hlen, map_getD_range t] at h1
  exact h1

theorem rank_target_subperm {t s : List ℚ} (hlen : t.length = s.length)
    (K : Int) : List.Subperm (rank_target t s K) t :=
  (List.take_sublist _ _).subperm.trans (ranked_base_perm hlen).subperm

theorem rank_target_length {t s : List ℚ} {K : Int}
    (hK : K ≤ (s.length : Int)) :
    (rank_target t s K).length = K.toNat := by
  unfold rank_target
  rw [List.length_take, List.length_map, length_idxSortDesc]
  exact Nat.min_eq_left (Int.toNat_le.mpr hK)

theorem sum_le_sum_of_subperm {l₁ l₂ : List ℚ} (h : List.Subperm l₁ l₂)
    (h2 : ∀ x ∈ l₂, 0 ≤ x) : l₁.sum ≤ l₂.sum := by
  have hm : (l₁ : Multiset ℚ) ≤ (l₂ : Multiset ℚ) := Multiset.coe_le.mpr h
  obtain ⟨u, hu⟩ := Multiset.le_iff_exists_add.mp hm
  have hsum : l₂.sum = l₁.sum + u.sum := by
    have := congrArg Multiset.sum hu
    simpa using this
  have hu0 : 0 ≤ u.sum := by
    refine Multiset.sum_nonneg fun x hx => ?_
    refine h2 x ?_
    have : x ∈ (l₂ : Multiset ℚ) := by rw [hu]; exact Multiset.mem_add.mpr (Or.inr hx)
    simpa using this
  linarith

theorem removedLoop_append (xs ys : List (Nat × Nat)) (acc : List Nat) :
    removedLoop (xs ++ ys) acc = removedLoop ys (removedLoop xs acc) := by
  induction xs generalizing acc with
  | nil => rfl
  | cons p xs ih =>
      obtain ⟨i, j⟩ := p
      rw [List.cons_append]
      simp only [removedLoop]
      split
      · exact ih acc
      · exact ih (acc ++ [i])

theorem subset_removedLoop (ps : List (Nat × Nat)) (acc : List Nat) :
    acc ⊆ removedLoop ps acc := by
  induction ps generalizing acc with
  | nil => exact fun a ha => ha
  | cons p ps ih =>
      obtain ⟨i, j⟩ := p
      simp only [removedLoop]
      split
      · exact ih acc
      · exact fun a ha => ih (acc ++ [i]) (List.mem_append_left _ ha)

/-- C4: for every input to the metrics validation step, validation fails
with a ValidationError (a ValueError carrying a human-readable message for
the violated constraint) whenever the arrays differ in shape, are not
one-dimensional, are empty, K is below 1, or K exceeds the length; and it
succeeds, returning the converted arrays, exactly when all five
constraints hold. -/
theorem check_and_convert_array_spec (a b : NDArray) (K : Int) :
    (check_and_convert_array a b K = .ok (a.data, b.data) ↔ validInput a b K) ∧
    (¬ validInput a b K →
      ∃ msg, check_and_convert_array a b K = .error (.valueError msg)) := by
  unfold check_and_convert_array validInput
  split_ifs with h1 h2 h3 h4 h5 <;> constructor <;>
    first
      | (intro hv; exact ⟨_, rfl⟩)
      | simp_all

/-- Witness for C4: a passing input is returned converted, and an input
with K = 0 is rejected with a ValueError. -/
theorem check_and_convert_array_spec_witness :
    check_and_convert_array (.oneD [0, 1]) (.oneD [2, 3]) 1 = .ok ([0, 1], [2, 3]) ∧
    ∃ msg, check_and_convert_array (.oneD [0, 1]) (.oneD [2, 3]) 0 =
      .error (.valueError msg) :=
  ⟨(check_and_convert_array_spec (.oneD [0, 1]) (.oneD [2, 3]) 1).1.mpr (by decide),
   (check_and_convert_array_spec (.oneD [0, 1]) (.oneD [2, 3]) 0).2 (by decide)⟩

/-- C5: on every valid input whose true labels sum to 0, recall_at_k
returns exactly 0; the guarded division never raises and the result is a
plain rational, not a NaN. -/
theorem recall_at_k_zero_relevant {t s : List ℚ} {K : Int}
    (h : validInput (.oneD t) (.oneD s) K) (hsum : t.sum = 0) :
    recall_at_k (.oneD t) (.oneD s) K = .ok 0 := by
  unfold recall_at_k
  rw [check_ok h]
  simp [Except.bind, hsum]

/-- Witness for C5 at trueLabels = [0, 0], scores = [5, 7], K = 1. -/
theorem recall_at_k_zero_relevant_witness :
    recall_at_k (.oneD [0, 0]) (.oneD [5, 7]) 1 = .ok 0 :=
  recall_at_k_zero_relevant (by decide) (by norm_num)

/-- C6: for valid input bounds, rank_target returns a sequence of length
exactly K whose elements form a multiset subset of the true labels: every
label occurs in the output no more often than in the input. -/
theorem rank_target_length_and_multiset_subset (t s : List ℚ) (K : Int)
    (hK : 1 ≤ K) (hKlen : K ≤ (s.length : Int)) (hlen : t.length = s.length) :
    ((rank_target t s K).length : Int) = K ∧
    ∀ x : ℚ, (rank_target t s K).count x ≤ t.count x := by
  constructor
  · rw [rank_target_length hKlen]
    omega
  · exact fun x => (rank_target_subperm hlen K).count_le x

/-- Witness for C6 at trueLabels = [0, 1, 1], scores = [5, 2, 9], K = 2. -/
theorem rank_target_length_and_multiset_subset_witness :
    ((rank_target [0, 1, 1] [5, 2, 9] 2).length : Int) = 2 ∧
    (rank_target [0, 1, 1] [5, 2, 9] 2).count 1 ≤ ([0, 1, 1] : List ℚ).count 1 :=
  ⟨(rank_target_length_and_multiset_subset [0, 1, 1] [5, 2, 9] 2
      (by decide) (by decide) (by decide)).1,
   (rank_target_length_and_multiset_subset [0, 1, 1] [5, 2, 9] 2
      (by decide) (by decide) (by decide)).2 1⟩

/-- C10: on every valid input with binary labels, precision_at_k and
recall_at_k both land in the closed interval from 0 to 1, because the
top-K ranked labels are a sub-multiset of the true labels. -/
theorem precision_recall_in_unit_interval (t s : List ℚ) (K : Int)
    (h : validInput (.oneD t) (.oneD s) K)
    (hbin : ∀ x ∈ t, x = 0 ∨ x = 1) :
    ∃ p r : ℚ,
      precision_at_k (.oneD t) (.oneD s) K = .ok p ∧ 0 ≤ p ∧ p ≤ 1 ∧
      recall_at_k (.oneD t) (.oneD s) K = .ok r ∧ 0 ≤ r ∧ r ≤ 1 := by
  obtain ⟨hlen, hpos, hK0, hKlen⟩ := validInput_oneD.mp h
  have hKlen' : K ≤ (s.length : Int) := by rw [← hlen]; exact hKlen
  have hsub := rank_target_subperm hlen K
  have hbinr : ∀ x ∈ rank_target t s K, x = 0 ∨ x = 1 :=
    fun x hx => hbin x (hsub.subset hx)
  have hrnn : ∀ x ∈ rank_target t s K, (0 : ℚ) ≤ x := by
    intro x hx; rcases hbinr x hx with h0 | h0 <;> simp [h0]
  have hrle : ∀ x ∈ rank_target t s K, x ≤ (1 : ℚ) := by
    intro x hx; rcases hbinr x hx with h0 | h0 <;> simp [h0]
  have htnn : ∀ x ∈ t, (0 : ℚ) ≤ x := by
    intro x hx; rcases hbin x hx with h0 | h0 <;> simp [h0]
  have hsum0 : (0 : ℚ) ≤ (rank_target t s K).sum := List.sum_nonneg hrnn
  have hsumlen : (rank_target t s K).sum ≤ ((rank_target t s K).length : ℚ) := by
    have := List.sum_le_card_nsmul (rank_target t s K) 1 hrle
    simpa using this
  have hlenpos : 0 < (rank_target t s K).length := by
    rw [rank_target_length hKlen']; omega
  refine ⟨listMean (rank_target t s K),
    if t.sum ≠ 0 then (rank_target t s K).sum / t.sum else 0,
    ?_, ?_, ?_, ?_, ?_, ?_⟩
  · unfold precision_at_k
    rw [check_ok h]
    rfl
  · exact div_nonneg hsum0 (Nat.cast_nonneg _)
  · rw [listMean, div_le_one (by exact_mod_cast hlenpos)]
    exact hsumlen
  · unfold recall_at_k
    rw [check_ok h]
    rfl
  · by_cases hts : t.sum = 0
    · simp [hts]
    · have hts0 : (0 : ℚ) < t.sum := lt_of_le_of_ne (List.sum_nonneg htnn) (Ne.symm hts)
      simp only [hts, if_pos, ne_eq, not_false_eq_true]
      exact div_nonneg hsum0 hts0.le
  · by_cases hts : t.sum = 0
    · simp [hts]
    · have hts0 : (0 : ℚ) < t.sum := lt_of_le_of_ne (List.sum_nonneg htnn) (Ne.symm hts)
      simp only [hts, ne_eq, not_false_eq_true, if_pos]
      rw [div_le_one hts0]
      exact sum_le_sum_of_subperm hsub htnn

/-- Witness for C10 at trueLabels = [1, 0], scores = [3, 5], K = 1. -/
theorem precision_recall_in_unit_interval_witness :
    ∃ p r : ℚ,
      precision_at_k (.oneD [1, 0]) (.oneD [3, 5]) 1 = .ok p ∧ 0 ≤ p ∧ p ≤ 1 ∧
      recall_at_k (.oneD [1, 0]) (.oneD [3, 5]) 1 = .ok r ∧ 0 ≤ r ∧ r ≤ 1 :=
  precision_recall_in_unit_interval [1, 0] [3, 5] 1 (by decide) (by decide)

/-- C9: fitting a second time replaces the fitted state entirely: fit on
an already fitted instance gives exactly the state of fit on a fresh
instance with the same threshold (and the same correlation method, which
in this model is part of how the correlation matrix of the frame was
produced), with no merge of prior removal decisions. -/
theorem refit_replaces_state (m : HighCorrRemoval) (X1 X2 : PDFrame) :
    (m.fit X1).fit X2 = (HighCorrRemoval.mk m.corr_threshold none).fit X2 ∧
    ((m.fit X1).fit X2).selected_features_ =
      some (fitSelected X2 m.corr_threshold) :=
  ⟨rfl, rfl⟩

/-- C2 counterexample: transform before any fit fails with the generic
attribute lookup error for selected_features_, which is not the distinct
uninitialized-state error kind the claim requires. -/
theorem transform_unfitted_counterexample :
    (HighCorrRemoval.mk (9/10) none).transform exFrame =
      .error (.attributeError "selected_features_") ∧
    (Except.error (.attributeError "selected_features_") :
        Except PyErr (List (String × List ℚ))) ≠
      .error (.notFittedError "This HighCorrRemoval instance is not fitted yet") := by
  exact ⟨rfl, by simp⟩

/-- C2 amended: calling transform on an instance on which fit has never
been called fails with the generic attribute-access error (AttributeError
for selected_features_), an obscure lookup failure, rather than a
distinct, clearly named uninitialized-state error. -/
theorem transform_unfitted_attribute_error (c : ℚ) (X : PDFrame) :
    (HighCorrRemoval.mk c none).transform X =
      .error (.attributeError "selected_features_") :=
  rfl

/-- C1 counterexample: in the concrete scenario (columns a and b
correlated at 0.95, threshold 0.9, column d constant), the claim predicts
that the earlier member a survives and the later member b is dropped; the
code keeps exactly [b, c], removing a, so the claimed survivor is removed
and the claimed removal survives. -/
theorem fit_removes_earlier_counterexample :
    fitSelected exFrame (9/10) = ["b", "c"] ∧
    "a" ∉ fitSelected exFrame (9/10) ∧ "b" ∈ fitSelected exFrame (9/10) := by
  with_unfolding_all decide

/-- C1 amended: for every pair (row i, column j) of the strict upper
triangle with absolute correlation above the threshold, taken in row-major
order, if the column index j has not already been marked for removal when
the pair is processed then the row index i is marked for removal — the
later member of a correlated pair survives and the earlier is dropped.
In the concrete scenario the constant column d and the earlier member a
are removed while the later member b and the uncorrelated column c
survive. -/
theorem fit_pairwise_elimination_rule (X : PDFrame) (c : ℚ) (m : Nat)
    (hm : m < (slPairs X c).length)
    (hj : ((slPairs X c).getD m (0, 0)).2 ∉
      removedLoop ((slPairs X c).take m) []) :
    ((slPairs X c).getD m (0, 0)).1 ∈ removedAll X c ∧
    fitSelected exFrame (9/10) = ["b", "c"] := by
  constructor
  · rw [List.getD_eq_getElem _ _ hm] at hj ⊢
    rcases hpd : (slPairs X c)[m] with ⟨i, j⟩
    rw [hpd] at hj
    have hj' : j ∉ removedLoop ((slPairs X c).take m) [] := hj
    have hstep : i ∈ removedLoop ((slPairs X c).take (m + 1)) [] := by
      rw [← List.take_concat_get _ _ hm, List.concat_eq_append,
        removedLoop_append, hpd]
      simp only [removedLoop]
      rw [if_neg hj']
      exact List.mem_append_right _ (List.mem_singleton.mpr rfl)
    have hfull : i ∈ removedLoop (slPairs X c) [] := by
      have hd := subset_removedLoop ((slPairs X c).drop (m + 1))
        (removedLoop ((slPairs X c).take (m + 1)) []) hstep
      rw [← removedLoop_append, List.take_append_drop] at hd
      exact hd
    exact List.mem_append_left _ hfull
  · with_unfolding_all decide

/-- Witness for C1: the first high pair of the scenario is (0, 1); column
index 1 is unmarked at that point, so row index 0 lands in the removal
set. -/
theorem fit_pairwise_elimination_rule_witness :
    ((slPairs exFrame (9/10)).getD 0 (0, 0)).1 ∈ removedAll exFrame (9/10) ∧
    fitSelected exFrame (9/10) = ["b", "c"] :=
  fit_pairwise_elimination_rule exFrame (9/10) 0
    (by with_unfolding_all decide) (by with_unfolding_all decide)

/-- C8: every column whose diagonal correlation entry is NaN is put into
the removal set by fit, so its index is never among the enumerated indices
that build selected_features_, whatever the threshold. -/
theorem nan_diagonal_always_removed (X : PDFrame) (c : ℚ) (k : Nat)
    (hk : k < X.cols.length) (hnan : X.corr k k = none) :
    k ∈ removedAll X c ∧
    k ∉ (X.cols.enum.filter fun p => decide (p.1 ∉ removedAll X c)).map Prod.fst ∧
    fitSelected X c =
      (X.cols.enum.filter fun p => decide (p.1 ∉ removedAll X c)).map Prod.snd := by
  have hconst : k ∈ constCols X := by
    unfold constCols
    rw [List.mem_filter]
    exact ⟨List.mem_range.mpr hk, by simp [hnan]⟩
  have h1 : k ∈ removedAll X c := List.mem_append_right _ hconst
  refine ⟨h1, ?_, rfl⟩
  intro hmem
  rw [List.mem_map] at hmem
  obtain ⟨p, hp, hpk⟩ := hmem
  rw [List.mem_filter] at hp
  exact (of_decide_eq_true hp.2) (hpk ▸ h1)

/-- Witness for C8: in the scenario frame, the constant column index 3 is
removed and never selected. -/
theorem nan_diagonal_always_removed_witness :
    3 ∈ removedAll exFrame (9/10) ∧
    3 ∉ (exFrame.cols.enum.filter fun p =>
      decide (p.1 ∉ removedAll exFrame (9/10))).map Prod.fst ∧
    fitSelected exFrame (9/10) =
      (exFrame.cols.enum.filter fun p =>
        decide (p.1 ∉ removedAll exFrame (9/10))).map Prod.snd :=
  nan_diagonal_always_removed exFrame (9/10) 3 (by decide) rfl

/-! Lemmas about the real-valued DCG computation. -/

theorem logb_two_two : Real.logb 2 2 = 1 := Real.logb_self_eq_one one_lt_two

theorem logb_two_four : Real.logb 2 4 = 2 := by
  rw [show (4 : ℝ) = 2 ^ (2 : ℕ) by norm_num, Real.logb_pow,
    Real.logb_self_eq_one one_lt_two]
  norm_num

theorem logb_pos_nat (i : ℕ) : 0 < Real.logb 2 ((i : ℝ) + 2) := by
  apply Real.logb_pos one_lt_two
  have h : (0 : ℝ) ≤ (i : ℝ) := Nat.cast_nonneg i
  linarith

theorem rpow_term_binary {x : ℚ} (hx : x = 0 ∨ x = 1) :
    (0 : ℝ) ≤ (2 : ℝ) ^ ((x : ℝ)) - 1 ∧ (2 : ℝ) ^ ((x : ℝ)) - 1 ≤ 1 := by
  rcases hx with h | h <;> subst h
  · rw [show ((0 : ℚ) : ℝ) = 0 by norm_num, Real.rpow_zero]
    norm_num
  · rw [show ((1 : ℚ) : ℝ) = 1 by norm_num, Real.rpow_one]
    norm_num

theorem getD_binary {r : List ℚ} (hb : ∀ x ∈ r, x = 0 ∨ x = 1) {i : ℕ}
    (hi : i < r.length) : r.getD i 0 = 0 ∨ r.getD i 0 = 1 := by
  refine hb _ ?_
  rw [List.getD_eq_getElem _ _ hi]
  exact List.getElem_mem hi

theorem dcgOfRanked_nonneg {r : List ℚ} (hb : ∀ x ∈ r, x = 0 ∨ x = 1) :
    0 ≤ dcgOfRanked r := by
  refine Finset.sum_nonneg fun i hi => ?_
  rw [Finset.mem_range] at hi
  exact div_nonneg (rpow_term_binary (getD_binary hb hi)).1 (logb_pos_nat i).le

theorem dcgOfRanked_le_ideal {r : List ℚ} (hb : ∀ x ∈ r, x = 0 ∨ x = 1) :
    dcgOfRanked r ≤ ∑ i ∈ Finset.range r.length, 1 / Real.logb 2 ((i : ℝ) + 2) := by
  refine Finset.sum_le_sum fun i hi => ?_
  rw [Finset.mem_range] at hi
  exact (div_le_div_iff_of_pos_right (logb_pos_nat i)).mpr
    (rpow_term_binary (getD_binary hb hi)).2

theorem ideal_dcg_pos {m : ℕ} (hm : 0 < m) :
    0 < ∑ i ∈ Finset.range m, 1 / Real.logb 2 ((i : ℝ) + 2) := by
  refine Finset.sum_pos (fun i _ => div_pos one_pos (logb_pos_nat i)) ?_
  exact Finset.nonempty_range_iff.mpr (Nat.pos_iff_ne_zero.mp hm)

theorem dcg_replicate (m : ℕ) :
    dcgOfRanked (List.replicate m 1) =
      ∑ i ∈ Finset.range m, 1 / Real.logb 2 ((i : ℝ) + 2) := by
  unfold dcgOfRanked
  rw [List.length_replicate]
  refine Finset.sum_congr rfl fun i hi => ?_
  rw [Finset.mem_range] at hi
  rw [List.getD_eq_getElem _ _ (by simpa using hi), List.getElem_replicate,
    show ((1 : ℚ) : ℝ) = 1 by norm_num, Real.rpow_one]
  norm_num

theorem dcg_ok {t s : List ℚ} {K : Int}
    (h : validInput (.oneD t) (.oneD s) K) :
    discounted_cumulative_gain_at_k (.oneD t) (.oneD s) K =
      .ok (dcgOfRanked (rank_target t s K)) := by
  unfold discounted_cumulative_gain_at_k
  rw [check_ok h]
  rfl

theorem validInput_ones {t s : List ℚ} {K : Int}
    (h : validInput (.oneD t) (.oneD s) K) :
    validInput (.oneD (t.map fun _ => (1 : ℚ))) (.oneD s) K := by
  rw [validInput_oneD] at h ⊢
  simpa using h

theorem ndcg_ok {t s : List ℚ} {K : Int}
    (h : validInput (.oneD t) (.oneD s) K) :
    normalized_discounted_cumulative_gain_at_k (.oneD t) (.oneD s) K =
      .ok (dcgOfRanked (rank_target t s K) /
        dcgOfRanked (rank_target (t.map fun _ => (1 : ℚ)) s K)) := by
  unfold normalized_discounted_cumulative_gain_at_k
  rw [show (NDArray.oneD t).onesLike = .oneD (t.map fun _ => (1 : ℚ)) from rfl,
    dcg_ok h, dcg_ok (validInput_ones h)]
  rfl

theorem rank_target_ones {t s : List ℚ} {K : Int} (hlen : t.length = s.length)
    (hK : K ≤ (s.length : Int)) :
    rank_target (t.map fun _ => (1 : ℚ)) s K = List.replicate K.toNat 1 := by
  unfold rank_target
  have hmap : ((idxSortDesc s).map fun i => (t.map fun _ => (1 : ℚ)).getD i 0) =
      List.replicate s.length 1 := by
    rw [List.eq_replicate_iff]
    constructor
    · rw [List.length_map, length_idxSortDesc]
    · intro b hb
      rw [List.mem_map] at hb
      obtain ⟨i, hi, hbi⟩ := hb
      have hir : i ∈ List.range s.length := (idxSortDesc_perm_range s).subset hi
      rw [List.mem_range] at hir
      have hilen : i < (t.map fun _ => (1 : ℚ)).length := by
        rw [List.length_map, hlen]; exact hir
      rw [← hbi, List.getD_eq_getElem _ _ hilen, List.getElem_map]
  rw [hmap, List.take_replicate, Nat.min_eq_left (Int.toNat_le.mpr hK)]

/-- C7: on every valid input with binary labels, ndcg_at_k — DCG of the
input divided by the DCG of all-ones labels under the same scores and K —
lies in the closed interval from 0 to 1. -/
theorem ndcg_in_unit_interval (t s : List ℚ) (K : Int)
    (h : validInput (.oneD t) (.oneD s) K)
    (hbin : ∀ x ∈ t, x = 0 ∨ x = 1) :
    ∃ v : ℝ,
      normalized_discounted_cumulative_gain_at_k (.oneD t) (.oneD s) K = .ok v ∧
      0 ≤ v ∧ v ≤ 1 := by
  obtain ⟨hlen, hpos, hK0, hKlen⟩ := validInput_oneD.mp h
  have hKlen' : K ≤ (s.length : Int) := by rw [← hlen]; exact hKlen
  have hbinr : ∀ x ∈ rank_target t s K, x = 0 ∨ x = 1 :=
    fun x hx => hbin x ((rank_target_subperm hlen K).subset hx)
  have hrlen : (rank_target t s K).length = K.toNat := rank_target_length hKlen'
  have hKt : 0 < K.toNat := by omega
  refine ⟨_, ndcg_ok h, ?_, ?_⟩ <;>
    rw [rank_target_ones hlen hKlen', dcg_replicate]
  · exact div_nonneg (dcgOfRanked_nonneg hbinr) (ideal_dcg_pos hKt).le
  · rw [div_le_one (ideal_dcg_pos hKt)]
    have hle := dcgOfRanked_le_ideal hbinr
    rw [hrlen] at hle
    exact hle

/-- Witness for C7 at trueLabels = [0, 1], scores = [2, 1], K = 1. -/
theorem ndcg_in_unit_interval_witness :
    ∃ v : ℝ,
      normalized_discounted_cumulative_gain_at_k (.oneD [0, 1]) (.oneD [2, 1]) 1 =
        .ok v ∧ 0 ≤ v ∧ v ≤ 1 :=
  ndcg_in_unit_interval [0, 1] [2, 1] 1 (by decide) (by decide)

theorem logb23_bounds :
    (198 / 125 : ℝ) < Real.logb 2 3 ∧ Real.logb 2 3 < 317 / 200 := by
  have hlog2 : (0 : ℝ) < Real.log 2 := Real.log_pos one_lt_two
  have h1 : ((2 : ℝ) ^ (198 : ℕ)) < (3 : ℝ) ^ (125 : ℕ) := by norm_num
  have h2 : ((3 : ℝ) ^ (200 : ℕ)) < (2 : ℝ) ^ (317 : ℕ) := by norm_num
  have h1' := Real.log_lt_log (by positivity) h1
  have h2' := Real.log_lt_log (by positivity) h2
  rw [Real.log_pow, Real.log_pow] at h1'
  rw [Real.log_pow, Real.log_pow] at h2'
  push_cast at h1' h2'
  constructor
  · rw [← Real.log_div_log, div_lt_div_iff₀ (by norm_num) hlog2]
    linarith
  · rw [← Real.log_div_log, div_lt_div_iff₀ hlog2 (by norm_num)]
    linarith

/-- C3: for trueLabels = [0, 0, 1, 1], scores = [0.1, 0.4, 0.35, 0.8] and
K = 3, the descending-score index order is [3, 1, 2, 0], the truncated
label sequence is [1, 0, 1], and the five metrics give precision 2/3,
recall 1, average precision 5/9, DCG 3/2, and nDCG within 0.001 of
0.7039. -/
theorem concrete_scenario_metrics :
    idxSortDesc [1/10, 4/10, 35/100, 8/10] = [3, 1, 2, 0] ∧
    rank_target [0, 0, 1, 1] [1/10, 4/10, 35/100, 8/10] 3 = [1, 0, 1] ∧
    precision_at_k (.oneD [0, 0, 1, 1]) (.oneD [1/10, 4/10, 35/100, 8/10]) 3 =
      .ok (2/3) ∧
    recall_at_k (.oneD [0, 0, 1, 1]) (.oneD [1/10, 4/10, 35/100, 8/10]) 3 =
      .ok 1 ∧
    average_precision_at_k (.oneD [0, 0, 1, 1])
      (.oneD [1/10, 4/10, 35/100, 8/10]) 3 = .ok (5/9) ∧
    discounted_cumulative_gain_at_k (.oneD [0, 0, 1, 1])
      (.oneD [1/10, 4/10, 35/100, 8/10]) 3 = .ok (3/2) ∧
    ∃ v : ℝ,
      normalized_discounted_cumulative_gain_at_k (.oneD [0, 0, 1, 1])
        (.oneD [1/10, 4/10, 35/100, 8/10]) 3 = .ok v ∧
      |v - 7039/10000| < 1/1000 := by
  have hv : validInput (.oneD [0, 0, 1, 1])
      (.oneD [1/10, 4/10, 35/100, 8/10]) 3 := by decide
  have h2 : rank_target [0, 0, 1, 1] [1/10, 4/10, 35/100, 8/10] 3 =
      [1, 0, 1] := by with_unfolding_all decide
  have hdcg : dcgOfRanked [1, 0, 1] = 3/2 := by
    unfold dcgOfRanked
    rw [show ([1, 0, 1] : List ℚ).length = 3 from rfl]
    rw [Finset.sum_range_succ, Finset.sum_range_succ, Finset.sum_range_succ,
      Finset.sum_range_zero]
    rw [show (([1, 0, 1] : List ℚ).getD 0 0) = 1 from rfl,
      show (([1, 0, 1] : List ℚ).getD 1 0) = 0 from rfl,
      show (([1, 0, 1] : List ℚ).getD 2 0) = 1 from rfl,
      show ((1 : ℚ) : ℝ) = 1 by norm_num,
      show ((0 : ℚ) : ℝ) = 0 by norm_num,
      Real.rpow_one, Real.rpow_zero]
    rw [show ((0 : ℕ) : ℝ) + 2 = 2 by norm_num,
      show ((1 : ℕ) : ℝ) + 2 = 3 by norm_num,
      show ((2 : ℕ) : ℝ) + 2 = 4 by norm_num,
      logb_two_two, logb_two_four]
    norm_num
  have hideal : dcgOfRanked (List.replicate (3 : Int).toNat 1) =
      1 + 1 / Real.logb 2 3 + 1/2 := by
    rw [show ((3 : Int).toNat) = 3 from rfl, dcg_replicate]
    rw [Finset.sum_range_succ, Finset.sum_range_succ, Finset.sum_range_succ,
      Finset.sum_range_zero]
    rw [show ((0 : ℕ) : ℝ) + 2 = 2 by norm_num,
      show ((1 : ℕ) : ℝ) + 2 = 3 by norm_num,
      show ((2 : ℕ) : ℝ) + 2 = 4 by norm_num,
      logb_two_two, logb_two_four]
    norm_num
  refine ⟨by with_unfolding_all decide, h2,
    by with_unfolding_all rfl, by with_unfolding_all rfl,
    by with_unfolding_all rfl, ?_, ?_⟩
  · rw [dcg_ok hv, h2, hdcg]
  · refine ⟨dcgOfRanked [1, 0, 1] /
      dcgOfRanked (List.replicate (3 : Int).toNat 1), ?_, ?_⟩
    · rw [ndcg_ok hv, h2,
        rank_target_ones (t := [0, 0, 1, 1]) (s := [1/10, 4/10, 35/100, 8/10]) (K := 3) rfl (by decide)]
    · rw [hdcg, hideal]
      obtain ⟨hLlo, hLhi⟩ := logb23_bounds
      have hL0 : (0 : ℝ) < Real.logb 2 3 := by linarith
      have hx1 : 1 / Real.logb 2 3 < 125/198 := by
        rw [div_lt_div_iff₀ hL0 (by norm_num)]
        linarith
      have hx2 : (200 : ℝ)/317 < 1 / Real.logb 2 3 := by
        rw [div_lt_div_iff₀ (by norm_num) hL0]
        linarith
      have hv1 : (3/2 : ℝ) / (1 + 1 / Real.logb 2 3 + 1/2) <
          (3/2) / (1 + 200/317 + 1/2) :=
        div_lt_div_of_pos_left (by norm_num) (by norm_num) (by linarith)
      have hv2 : (3/2 : ℝ) / (1 + 125/198 + 1/2) <
          (3/2) / (1 + 1 / Real.logb 2 3 + 1/2) :=
        div_lt_div_of_pos_left (by norm_num) (by linarith) (by linarith)
      have hc1 : (3/2 : ℝ) / (1 + 125/198 + 1/2) = 297/422 := by norm_num
      have hc2 : (3/2 : ℝ) / (1 + 200/317 + 1/2) = 951/1351 := by norm_num
      rw [hc1] at hv2
      rw [hc2] at hv1
      rw [abs_lt]
      constructor <;> linarith

end DsHelpUtils
